import Mathlib

/-!
Formal model of `MindsDBSQLStreamParser` from `mindsdb_sdk/utils/agents.py`.

The parser consumes a finite stream of chunks.  Each chunk is either a plain
text fragment or a structured record with an optional `output` text field and
an optional list of actions; an action may carry a `tool` string.  The
generator `stream_and_parse_sql_query` yields, for each chunk, the chunk
output together with an optional SQL payload extracted from the first action
whose tool string contains the marker `sql_db_query` and matches the regular
expression `tool_input="(.*?)"`; a latch flag makes sure only the first match
of the whole stream is reported.  `process_stream` folds the generated
results into the accumulated full response and the final optional SQL query.

All definitions below are computable translations of the Python source.  The
regular-expression search is modelled character by character: the pattern is
searched at every start position from the left; at a start position where the
literal `tool_input="` matches, the lazy group captures up to the nearest
following double quote, failing if a newline or the end of the string is
reached first (Python `.` does not match a newline), in which case the scan
resumes one character further on.
-/

namespace MindsDB

/-- The double-quote character. -/
def dq : Char := Char.ofNat 34

/-- The single-quote character. -/
def squote : Char := Char.ofNat 39

/-- The backslash character. -/
def bslash : Char := Char.ofNat 92

/-- The newline character. -/
def nl : Char := Char.ofNat 10

/-- The SQL-tool marker substring tested with `in` on the tool string. -/
def sqlMarker : List Char := "sql_db_query".toList

/-- The literal part of the regular expression, `tool_input=` followed by a
double quote. -/
def toolInputLit : List Char := "tool_input=".toList ++ [dq]

/-- The escaped-single-quote sequence, backslash followed by single quote. -/
def escSeq : List Char := [bslash, squote]

/-- Substring test on character lists, modelling the Python `in` operator on
strings. -/
def listContains (needle : List Char) : List Char → Bool
  | [] => needle.isEmpty
  | c :: t => List.isPrefixOf needle (c :: t) || listContains needle t

/-- The lazy capture group `(.*?)` followed by a closing double quote: capture
up to the nearest double quote, failing on a newline or the end of the
string. -/
def captureGroup : List Char → Option (List Char)
  | [] => none
  | c :: rest =>
    if c = dq then some []
    else if c = nl then none
    else (captureGroup rest).map (fun p => c :: p)

/-- `re.search` for the pattern `tool_input="(.*?)"`: try every start
position from the left; where the literal matches, attempt the capture, and
on capture failure resume the scan one character further on. -/
def searchToolInput : List Char → Option (List Char)
  | [] => none
  | c :: rest =>
    if List.isPrefixOf toolInputLit (c :: rest) then
      match captureGroup ((c :: rest).drop toolInputLit.length) with
      | some p => some p
      | none => searchToolInput rest
    else searchToolInput rest

/-- The Python replace of every escaped single quote by a bare single
quote: replace each left-to-right non-overlapping occurrence of the
two-character sequence backslash, single quote by a single quote. -/
def unescapeQuotes : List Char → List Char
  | [] => []
  | [c] => [c]
  | c :: c2 :: rest =>
    if c = bslash ∧ c2 = squote then squote :: unescapeQuotes rest
    else c :: unescapeQuotes (c2 :: rest)

/-- An action record: it may carry a `tool` string. -/
structure Action where
  tool : Option String

/-- A chunk of the completion stream: plain text, or a structured record with
an optional `output` field and an optional list of actions. -/
inductive Chunk where
  | text : String → Chunk
  | dict : Option String → Option (List Action) → Chunk

/-- The SQL payload an action yields, if any: the tool string must be
present, contain the marker, and match the pattern; the captured payload is
unescaped.  This models the per-action body of the generator loop. -/
def actionSql (a : Action) : Option String :=
  match a.tool with
  | none => none
  | some t =>
    if listContains sqlMarker t.toList then
      (searchToolInput t.toList).map (fun p => String.mk (unescapeQuotes p))
    else none

/-- The output contributed by a chunk: the chunk itself for plain text, the
`output` field (defaulting to the empty string) for a record. -/
def chunkOutput : Chunk → String
  | .text s => s
  | .dict out _ => out.getD ""

/-- First action of the list that yields a SQL payload, modelling the
`break` in the generator loop. -/
def firstActionSql : List Action → Option String
  | [] => none
  | a :: rest =>
    match actionSql a with
    | some s => some s
    | none => firstActionSql rest

/-- One iteration of the generator body: given the latch flag, produce the
chunk output and the optional SQL payload of this chunk.  When the latch is
already set no payload is ever produced; the action list is scanned only
when present and non-empty. -/
def extractChunk (found : Bool) : Chunk → String × Option String
  | .text s => (s, none)
  | .dict out acts =>
    (out.getD "",
      match acts with
      | some (a :: rest) => if found then none else firstActionSql (a :: rest)
      | _ => none)

/-- The generator `stream_and_parse_sql_query`: map `extractChunk` over the
stream, threading the latch flag, which is set as soon as a payload is
produced. -/
def streamAndParse (found : Bool) : List Chunk → List (String × Option String)
  | [] => []
  | c :: cs =>
    extractChunk found c ::
      streamAndParse (found || (extractChunk found c).2.isSome) cs

/-- The consumer loop of `process_stream`: append each truthy (non-empty)
output to the full response, and record a yielded SQL payload only when it
is truthy (non-empty) and no query has been recorded yet. -/
def consumeResults : String × Option String → List (String × Option String) → String × Option String
  | acc, [] => acc
  | (full, sql), r :: rs =>
    consumeResults
      (if r.1 = "" then full else full ++ r.1,
        match sql, r.2 with
        | none, some s => if s = "" then none else some s
        | _, _ => sql)
      rs

/-- `process_stream`: run the generator from an unset latch and fold the
results from an empty response and no query. -/
def processStream (cs : List Chunk) : String × Option String :=
  consumeResults ("", none) (streamAndParse false cs)

/-- The ordered concatenation of the outputs of all chunks. -/
def concatOutputs : List Chunk → String
  | [] => ""
  | c :: cs => chunkOutput c ++ concatOutputs cs

/-- All SQL payloads the actions of one chunk can yield, in action order. -/
def chunkPayloads : Chunk → List String
  | .text _ => []
  | .dict _ none => []
  | .dict _ (some acts) => acts.filterMap actionSql

/-- All SQL payloads of the stream, in arrival order.  A chunk sequence has a
matching action exactly when this list is non-empty. -/
def streamPayloads : List Chunk → List String
  | [] => []
  | c :: cs => chunkPayloads c ++ streamPayloads cs

/-- Whether some action of the chunk has a tool string containing the
SQL-tool marker. -/
def chunkHasMarker : Chunk → Bool
  | .text _ => false
  | .dict _ none => false
  | .dict _ (some acts) =>
    acts.any (fun a =>
      match a.tool with
      | some t => listContains sqlMarker t.toList
      | none => false)

/-- One step of the pure left fold equivalent to the whole pipeline.  The
state is the latch flag, the accumulated response and the recorded query;
the new state depends only on the old state and the chunk. -/
def drainStep : Bool × String × Option String → Chunk → Bool × String × Option String
  | (found, full, sql), c =>
    (found || (extractChunk found c).2.isSome,
      if (extractChunk found c).1 = "" then full else full ++ (extractChunk found c).1,
      match sql, (extractChunk found c).2 with
      | none, some s => if s = "" then none else some s
      | _, _ => sql)

/-- The capture the specification sentence of claim C10 describes, written
from its words for comparison with the code model: the payload is the
substring strictly between the first occurrence of the literal
`tool_input="` and the nearest following double quote, with no restriction
on the characters in between. -/
def specCapToQuote : List Char → Option (List Char)
  | [] => none
  | c :: rest =>
    if c = dq then some []
    else (specCapToQuote rest).map (fun p => c :: p)

/-- First-occurrence capture following the words of claim C10: find the
first occurrence of the literal and capture up to the nearest following
double quote. -/
def specFirstCapture : List Char → Option (List Char)
  | [] => none
  | c :: rest =>
    if List.isPrefixOf toolInputLit (c :: rest) then
      specCapToQuote ((c :: rest).drop toolInputLit.length)
    else specFirstCapture rest

/-- Build a tool string carrying the given payload, used for concrete
streams in witnesses and counterexamples. -/
def mkTool (payload : List Char) : String :=
  String.mk ("sql_db_query tool_input=".toList ++ dq :: payload ++ [dq])

/-- A single-action chunk with the given payload in its tool string. -/
def sqlChunk (payload : List Char) : Chunk :=
  Chunk.dict none (some [⟨some (mkTool payload)⟩])

-- sanity checks on the model
example : searchToolInput (mkTool "SELECT 1".toList).toList = some "SELECT 1".toList := by decide
example : actionSql ⟨some (mkTool "SELECT 1".toList)⟩ = some "SELECT 1" := by decide
example : processStream [Chunk.text "Hello ", Chunk.text "world"] = ("Hello world", none) := by decide
example : (processStream [sqlChunk "SELECT 1".toList, sqlChunk "SELECT 2".toList]).2 = some "SELECT 1" := by decide
example : (processStream [sqlChunk [], sqlChunk "SELECT 2".toList]).2 = none := by decide
example : unescapeQuotes [bslash, squote, squote] = [squote, squote] := by decide
example :
    processStream
      [Chunk.dict (some "Thinking...") none,
       Chunk.dict (some "") (some [⟨some (mkTool "SELECT * FROM t".toList)⟩]),
       Chunk.dict (some "Done") none] =
      ("Thinking...Done", some "SELECT * FROM t") := by decide

/-! ### Basic facts about the per-chunk extraction -/

lemma extractChunk_fst (found : Bool) (c : Chunk) :
    (extractChunk found c).1 = chunkOutput c := by
  cases c <;> rfl

lemma extractChunk_true (c : Chunk) :
    extractChunk true c = (chunkOutput c, none) := by
  cases c with
  | text s => rfl
  | dict out acts =>
    cases acts with
    | none => rfl
    | some l => cases l <;> rfl

lemma firstActionSql_eq_head (acts : List Action) :
    firstActionSql acts = (acts.filterMap actionSql).head? := by
  induction acts with
  | nil => rfl
  | cons a rest ih =>
    simp only [firstActionSql, List.filterMap_cons]
    cases h : actionSql a <;> simp [ih]

lemma extractChunk_false_snd (c : Chunk) :
    (extractChunk false c).2 = (chunkPayloads c).head? := by
  cases c with
  | text s => rfl
  | dict out acts =>
    cases acts with
    | none => rfl
    | some l =>
      cases l with
      | nil => rfl
      | cons a rest =>
        simp [extractChunk, chunkPayloads, firstActionSql_eq_head]

lemma streamAndParse_true (cs : List Chunk) :
    streamAndParse true cs = cs.map (fun c => (chunkOutput c, none)) := by
  induction cs with
  | nil => rfl
  | cons c rest ih =>
    simp [streamAndParse, extractChunk_true, ih]

/-! ### Facts about the consumer loop -/

lemma consumeResults_some (a : String) : ∀ (rs : List (String × Option String)) (f : String),
    (consumeResults (f, some a) rs).2 = some a := by
  intro rs
  induction rs with
  | nil => intro f; rfl
  | cons r rest ih => intro f; simp [consumeResults, ih]

lemma consumeResults_map_none (cs : List Chunk) : ∀ (f : String),
    (consumeResults (f, none) (cs.map (fun c => (chunkOutput c, none)))).2 = none := by
  induction cs with
  | nil => intro f; rfl
  | cons c rest ih => intro f; simp [consumeResults, ih]

/-- The final SQL query of `process_stream` is the first payload of the
stream, filtered through the truthiness check of the consumer loop. -/
lemma processStream_sql (cs : List Chunk) :
    (processStream cs).2 =
      match (streamPayloads cs).head? with
      | none => none
      | some p => if p = "" then none else some p := by
  have aux : ∀ (cs : List Chunk) (f : String),
      (consumeResults (f, none) (streamAndParse false cs)).2 =
        match (streamPayloads cs).head? with
        | none => none
        | some p => if p = "" then none else some p := by
    intro cs
    induction cs with
    | nil => intro f; rfl
    | cons c rest ih =>
      intro f
      cases h : (chunkPayloads c).head? with
      | none =>
        have hsnd : (extractChunk false c).2 = none := (extractChunk_false_snd c).trans h
        have hnil : chunkPayloads c = [] := List.head?_eq_none_iff.mp h
        simp [streamAndParse, consumeResults, hsnd, streamPayloads, hnil, ih]
      | some p =>
        have hsnd : (extractChunk false c).2 = some p := (extractChunk_false_snd c).trans h
        obtain ⟨ps, hps⟩ : ∃ ps, chunkPayloads c = p :: ps := by
          cases hc : chunkPayloads c with
          | nil => rw [hc] at h; simp at h
          | cons q qs => rw [hc] at h; simp at h; exact ⟨qs, by rw [h]⟩
        by_cases hp : p = ""
        · subst hp
          simp [streamAndParse, consumeResults, hsnd, streamPayloads, hps,
            streamAndParse_true, consumeResults_map_none]
        · simp [streamAndParse, consumeResults, hsnd, streamPayloads, hps, hp,
            consumeResults_some]
  exact aux cs ""

/-- The accumulated outputs of the generated results. -/
def resultsOut : List (String × Option String) → String
  | [] => ""
  | r :: rs => r.1 ++ resultsOut rs

lemma consumeResults_fst : ∀ (rs : List (String × Option String)) (f : String) (s : Option String),
    (consumeResults (f, s) rs).1 = f ++ resultsOut rs := by
  intro rs
  induction rs with
  | nil =>
    intro f s
    simp [consumeResults, resultsOut]
  | cons r rest ih =>
    intro f s
    by_cases h : r.1 = ""
    · simp [consumeResults, resultsOut, h, ih]
    · simp [consumeResults, resultsOut, h, ih, String.append_assoc]

lemma resultsOut_streamAndParse : ∀ (cs : List Chunk) (found : Bool),
    resultsOut (streamAndParse found cs) = concatOutputs cs := by
  intro cs
  induction cs with
  | nil => intro found; rfl
  | cons c rest ih =>
    intro found
    simp [streamAndParse, resultsOut, concatOutputs, extractChunk_fst, ih]

lemma processStream_fst (cs : List Chunk) :
    (processStream cs).1 = concatOutputs cs := by
  simp [processStream, consumeResults_fst, resultsOut_streamAndParse]

/-- The generator-consumer pipeline computes the same state as a single pure
left fold of `drainStep`. -/
lemma consumeResults_eq_foldl : ∀ (cs : List Chunk) (found : Bool) (f : String) (s : Option String),
    consumeResults (f, s) (streamAndParse found cs) =
      (cs.foldl drainStep (found, f, s)).2 := by
  intro cs
  induction cs with
  | nil => intro found f s; rfl
  | cons c rest ih =>
    intro found f s
    simp only [streamAndParse, consumeResults, List.foldl, drainStep]
    exact ih _ _ _

/-! ### Marker-free streams -/

lemma actionSql_eq_none_of_no_marker (a : Action)
    (h : (match a.tool with
          | some t => listContains sqlMarker t.toList
          | none => false) = false) :
    actionSql a = none := by
  cases ht : a.tool with
  | none => simp [actionSql, ht]
  | some t =>
    rw [ht] at h
    have h2 : listContains sqlMarker t.data = false := h
    simp [actionSql, ht, h, h2]

lemma chunkPayloads_eq_nil_of_no_marker (c : Chunk) (h : chunkHasMarker c = false) :
    chunkPayloads c = [] := by
  cases c with
  | text s => rfl
  | dict out acts =>
    cases acts with
    | none => rfl
    | some l =>
      simp only [chunkHasMarker, List.any_eq_false] at h
      simp only [chunkPayloads, List.filterMap_eq_nil_iff]
      intro a ha
      exact actionSql_eq_none_of_no_marker a (by simpa using h a ha)

lemma streamPayloads_eq_nil (cs : List Chunk) (h : ∀ c ∈ cs, chunkHasMarker c = false) :
    streamPayloads cs = [] := by
  induction cs with
  | nil => rfl
  | cons c rest ih =>
    simp only [streamPayloads]
    rw [chunkPayloads_eq_nil_of_no_marker c (h c (by simp)),
      ih (fun d hd => h d (by simp [hd]))]
    rfl

/-! ### The unescaping step -/

lemma listContains_tail (needle : List Char) (c : Char) (t : List Char)
    (h : listContains needle (c :: t) = false) : listContains needle t = false := by
  simp only [listContains, Bool.or_eq_false_iff] at h
  exact h.2

lemma listContains_head (needle : List Char) (c : Char) (t : List Char)
    (h : listContains needle (c :: t) = false) :
    List.isPrefixOf needle (c :: t) = false := by
  simp only [listContains, Bool.or_eq_false_iff] at h
  exact h.1

lemma unescape_no_esc : ∀ (xs : List Char), listContains escSeq xs = false →
    unescapeQuotes xs = xs
  | [], _ => rfl
  | [c], _ => rfl
  | c :: c2 :: t, h => by
    have h1 : List.isPrefixOf escSeq (c :: c2 :: t) = false := listContains_head _ _ _ h
    have ht : listContains escSeq (c2 :: t) = false := listContains_tail _ _ _ h
    have hcond : ¬(c = bslash ∧ c2 = squote) := by
      rintro ⟨rfl, rfl⟩
      simp [escSeq, List.isPrefixOf] at h1
    rw [unescapeQuotes, if_neg hcond, unescape_no_esc (c2 :: t) ht]

lemma unescape_append_esc : ∀ (xs ys : List Char), listContains escSeq xs = false →
    unescapeQuotes (xs ++ escSeq ++ ys) = xs ++ squote :: unescapeQuotes ys
  | [], ys, _ => by
    simp only [List.nil_append, escSeq, List.cons_append]
    rw [unescapeQuotes]
    simp
  | [c], ys, _ => by
    have hne : ¬(c = bslash ∧ bslash = squote) := by
      rintro ⟨-, h⟩
      simp [bslash, squote] at h
    simp only [escSeq, List.cons_append, List.nil_append, List.append_assoc]
    rw [unescapeQuotes, if_neg hne, unescapeQuotes]
    simp
  | c :: c2 :: t, ys, h => by
    have h1 : List.isPrefixOf escSeq (c :: c2 :: t) = false := listContains_head _ _ _ h
    have hcond : ¬(c = bslash ∧ c2 = squote) := by
      rintro ⟨rfl, rfl⟩
      simp [escSeq, List.isPrefixOf] at h1
    have ht : listContains escSeq (c2 :: t) = false := listContains_tail _ _ _ h
    have ih := unescape_append_esc (c2 :: t) ys ht
    simp only [List.cons_append] at ih ⊢
    rw [unescapeQuotes, if_neg hcond, ih]

lemma unescape_mem : ∀ (p : List Char) (c : Char), c ∈ unescapeQuotes p →
    c ∈ p ∨ c = squote
  | [], c, h => by simp [unescapeQuotes] at h
  | [d], c, h => by
    rw [unescapeQuotes] at h
    exact Or.inl h
  | d :: e :: rest, c, h => by
    rw [unescapeQuotes] at h
    by_cases hde : d = bslash ∧ e = squote
    · rw [if_pos hde] at h
      rcases List.mem_cons.mp h with h1 | h1
      · exact Or.inr h1
      · rcases unescape_mem rest c h1 with h2 | h2
        · exact Or.inl (by simp [h2])
        · exact Or.inr h2
    · rw [if_neg hde] at h
      rcases List.mem_cons.mp h with h1 | h1
      · exact Or.inl (by simp [h1])
      · rcases unescape_mem (e :: rest) c h1 with h2 | h2
        · exact Or.inl (by simpa using Or.inr h2)
        · exact Or.inr h2

/-! ### Shape of a successful capture -/

lemma captureGroup_decomp : ∀ (xs p : List Char), captureGroup xs = some p →
    (∃ rest, xs = p ++ dq :: rest) ∧ dq ∉ p ∧ nl ∉ p
  | [], p, h => by simp [captureGroup] at h
  | c :: rest, p, h => by
    rw [captureGroup] at h
    by_cases hdq : c = dq
    · rw [if_pos hdq] at h
      obtain rfl : ([] : List Char) = p := Option.some.inj h
      exact ⟨⟨rest, by simp [hdq]⟩, by simp, by simp⟩
    · rw [if_neg hdq] at h
      by_cases hnl : c = nl
      · rw [if_pos hnl] at h; exact absurd h (by simp)
      · rw [if_neg hnl] at h
        obtain ⟨q, hq, rfl⟩ := Option.map_eq_some'.mp h
        obtain ⟨⟨r, hr⟩, hdqq, hnlq⟩ := captureGroup_decomp rest q hq
        refine ⟨⟨r, by simp [hr]⟩, ?_, ?_⟩
        · simp only [List.mem_cons, not_or]
          exact ⟨fun hc => hdq hc.symm, hdqq⟩
        · simp only [List.mem_cons, not_or]
          exact ⟨fun hc => hnl hc.symm, hnlq⟩

lemma search_decomp : ∀ (t p : List Char), searchToolInput t = some p →
    (∃ pre rest, t = pre ++ toolInputLit ++ p ++ dq :: rest) ∧ dq ∉ p ∧ nl ∉ p
  | [], p, h => by simp [searchToolInput] at h
  | c :: tl, p, h => by
    rw [searchToolInput] at h
    by_cases hpre : List.isPrefixOf toolInputLit (c :: tl) = true
    · rw [if_pos hpre] at h
      cases hcap : captureGroup ((c :: tl).drop toolInputLit.length) with
      | some q =>
        rw [hcap] at h
        obtain rfl : q = p := Option.some.inj h
        have hsplit : (c :: tl) = toolInputLit ++ (c :: tl).drop toolInputLit.length := by
          rw [List.isPrefixOf_iff_prefix] at hpre
          obtain ⟨r, hr⟩ := hpre
          rw [← hr, List.drop_left]
        obtain ⟨⟨rest, hrest⟩, hdqp, hnlp⟩ := captureGroup_decomp _ _ hcap
        refine ⟨⟨[], rest, ?_⟩, hdqp, hnlp⟩
        rw [List.nil_append, hsplit, hrest]
        simp
      | none =>
        rw [hcap] at h
        obtain ⟨⟨pre, rest, hrest⟩, hdqp, hnlp⟩ := search_decomp tl p h
        exact ⟨⟨c :: pre, rest, by simp [hrest]⟩, hdqp, hnlp⟩
    · rw [if_neg hpre] at h
      obtain ⟨⟨pre, rest, hrest⟩, hdqp, hnlp⟩ := search_decomp tl p h
      exact ⟨⟨c :: pre, rest, by simp [hrest]⟩, hdqp, hnlp⟩

/-! ### Concrete streams used by witnesses and counterexamples -/

/-- Two matching actions, the first capturing `SELECT 1`. -/
def wTwoMatches : List Chunk :=
  [Chunk.text "Hello ", sqlChunk "SELECT 1".toList, sqlChunk "SELECT 2".toList]

/-- Two matching actions, the first capturing the empty payload. -/
def wEmptyFirst : List Chunk := [sqlChunk [], sqlChunk "SELECT 2".toList]

/-- A single matching action whose payload carries escaped single quotes. -/
def wSingleEsc : List Chunk :=
  [sqlChunk ("SELECT ".toList ++ ([bslash, squote, Char.ofNat 120, bslash, squote]))]

/-- The unescaped query the single matching action of `wSingleEsc` yields. -/
def wSingleEscResult : String :=
  String.mk ("SELECT ".toList ++ ([squote, Char.ofNat 120, squote]))

/-- A single matching action capturing the empty payload. -/
def wSingleEmpty : List Chunk := [sqlChunk []]

/-- A stream whose only action tool string matches the pattern but does not
contain the SQL-tool marker. -/
def wNoMarker : List Chunk :=
  [Chunk.text "hi",
   Chunk.dict (some "x")
     (some [⟨some (String.mk ("other_tool tool_input=".toList ++ (dq :: "SELECT 3".toList) ++ [dq]))⟩,
            ⟨none⟩])]

/-- A tool string whose first `tool_input="` occurrence is followed by a
newline before the closing double quote, and which carries a second
occurrence capturing a plain payload. -/
def cexNewlineTool : String :=
  String.mk ("sql_db_query tool_input=".toList ++
    ([dq, Char.ofNat 97, nl, Char.ofNat 98, dq] ++
      (" tool_input=".toList ++ [dq, Char.ofNat 99, dq])))

/-! ### The claims -/

/-- C1, amended.  For every chunk sequence whose matching actions yield two
or more payloads, `process_stream` returns the first payload in stream order
when that payload is non-empty; when the first captured payload is the empty
string the returned query is `none`.  In either case the result does not
depend on the later payloads, so once captured the query is never
overwritten by a later match. -/
theorem first_match_wins (cs : List Chunk) (p : String) (ps : List String)
    (h : streamPayloads cs = p :: ps) (_hps : ps ≠ []) :
    (processStream cs).2 = if p = "" then none else some p := by
  rw [processStream_sql, h]
  simp

/-- Witness for C1 at a concrete two-match stream. -/
theorem first_match_wins_w :
    streamPayloads wTwoMatches = "SELECT 1" :: ["SELECT 2"] ∧
    (processStream wTwoMatches).2 = some "SELECT 1" := by
  have h2 := first_match_wins wTwoMatches "SELECT 1" ["SELECT 2"] (by decide) (by decide)
  rw [if_neg (by decide : ¬("SELECT 1" : String) = "")] at h2
  exact ⟨by decide, h2⟩

/-- Counterexample to C1 as stated: the stream has two matching actions and
the first match captures the empty payload, yet `process_stream` returns
`none` rather than that payload. -/
theorem first_match_wins_cex :
    streamPayloads wEmptyFirst = ["", "SELECT 2"] ∧
    (processStream wEmptyFirst).2 = none ∧
    (none : Option String) ≠ some "" :=
  ⟨by decide, by decide, by decide⟩

/-- C2, amended.  For every chunk sequence whose matching actions yield
exactly one payload, `process_stream` returns that unescaped payload when it
is non-empty, and `none` when the captured payload is the empty string.
The payload list `streamPayloads` is built with `actionSql`, which unescapes
the captured text. -/
theorem single_match_payload (cs : List Chunk) (p : String)
    (h : streamPayloads cs = [p]) :
    (processStream cs).2 = if p = "" then none else some p := by
  rw [processStream_sql, h]
  simp

/-- Witness for C2 at a stream whose single payload carries escaped
quotes. -/
theorem single_match_payload_w :
    streamPayloads wSingleEsc = [wSingleEscResult] ∧
    (processStream wSingleEsc).2 = some wSingleEscResult := by
  have h2 := single_match_payload wSingleEsc wSingleEscResult (by decide)
  rw [if_neg (by decide : ¬wSingleEscResult = "")] at h2
  exact ⟨by decide, h2⟩

/-- Counterexample to C2 as stated: a single matching action captures the
empty payload, yet `process_stream` returns `none` rather than the captured
payload. -/
theorem single_match_payload_cex :
    streamPayloads wSingleEmpty = [""] ∧
    (processStream wSingleEmpty).2 = none ∧
    (none : Option String) ≠ some "" :=
  ⟨by decide, by decide, by decide⟩

/-- C3.  For every chunk sequence the accumulated full response equals the
concatenation, in arrival order, of the output of every chunk: the chunk itself
for plain text, the `output` field defaulting to the empty string for
records.  Empty outputs contribute nothing. -/
theorem full_response_is_concat (cs : List Chunk) :
    (processStream cs).1 = concatOutputs cs :=
  processStream_fst cs

/-- C4.  If no action of the stream has a tool string containing the
SQL-tool marker then `process_stream` returns no SQL query. -/
theorem no_marker_no_sql (cs : List Chunk) (h : ∀ c ∈ cs, chunkHasMarker c = false) :
    (processStream cs).2 = none := by
  rw [processStream_sql, streamPayloads_eq_nil cs h]
  rfl

/-- Witness for C4: the stream has an action matching the pattern but its
tool string lacks the marker. -/
theorem no_marker_no_sql_w :
    (∀ c ∈ wNoMarker, chunkHasMarker c = false) ∧
    (processStream wNoMarker).2 = none :=
  ⟨by decide, no_marker_no_sql wNoMarker (by decide)⟩

/-- C5.  Each occurrence of backslash-quote in a captured payload is
replaced by a bare single quote: before an occurrence the text is copied
unchanged, the occurrence becomes a single quote, and the replacement
continues in the remainder; text without any occurrence is returned
unchanged. -/
theorem unescape_replaces_escaped_quotes (xs ys : List Char)
    (h : listContains escSeq xs = false) :
    unescapeQuotes (xs ++ escSeq ++ ys) = xs ++ squote :: unescapeQuotes ys ∧
    unescapeQuotes xs = xs :=
  ⟨unescape_append_esc xs ys h, unescape_no_esc xs h⟩

/-- Witness for C5 at concrete text. -/
theorem unescape_replaces_escaped_quotes_w :
    listContains escSeq "ab".toList = false ∧
    unescapeQuotes ("ab".toList ++ escSeq ++ "cd".toList) =
      "ab".toList ++ squote :: unescapeQuotes "cd".toList ∧
    unescapeQuotes "ab".toList = "ab".toList := by
  have h := unescape_replaces_escaped_quotes "ab".toList "cd".toList (by decide)
  exact ⟨by decide, h.1, h.2⟩

/-- C6.  Malformed chunks degrade gracefully: a record with both fields
absent extracts to an empty output and no query, an absent tool yields no
query, the output field always defaults to the empty string, and a chunk
none of whose actions matches any pattern yields no query.  All extraction
functions are total, so no chunk makes the operation fail. -/
theorem malformed_chunk_graceful (found : Bool) (out : Option String) (acts : List Action)
    (h : ∀ a ∈ acts, actionSql a = none) :
    extractChunk found (Chunk.dict none none) = ("", none) ∧
    actionSql ⟨none⟩ = none ∧
    (extractChunk found (Chunk.dict out (some acts))).1 = out.getD "" ∧
    (extractChunk found (Chunk.dict out (some acts))).2 = none := by
  refine ⟨rfl, rfl, extractChunk_fst found _, ?_⟩
  cases acts with
  | nil => rfl
  | cons a rest =>
    cases found with
    | true => simp [extractChunk]
    | false =>
      have hnil : (a :: rest).filterMap actionSql = [] := List.filterMap_eq_nil_iff.mpr h
      simp [extractChunk, firstActionSql_eq_head, hnil]

/-- Witness for C6 at a concrete malformed chunk. -/
theorem malformed_chunk_graceful_w :
    (∀ a ∈ [Action.mk (some "no match here")], actionSql a = none) ∧
    extractChunk false (Chunk.dict none none) = ("", none) ∧
    actionSql ⟨none⟩ = none ∧
    (extractChunk false (Chunk.dict (some "x") (some [Action.mk (some "no match here")]))).1 =
      (some "x").getD "" ∧
    (extractChunk false (Chunk.dict (some "x") (some [Action.mk (some "no match here")]))).2 =
      none := by
  have h := malformed_chunk_graceful false (some "x") [Action.mk (some "no match here")]
    (by decide)
  exact ⟨by decide, h.1, h.2.1, h.2.2.1, h.2.2.2⟩

/-- C7.  A plain text chunk extracts to itself with no query, and the
two-chunk text stream of the specification scenario drains to the
concatenated text and no query. -/
theorem plain_text_extract :
    (∀ (found : Bool) (s : String), extractChunk found (Chunk.text s) = (s, none)) ∧
    processStream [Chunk.text "Hello ", Chunk.text "world"] = ("Hello world", none) :=
  ⟨fun _ _ => rfl, by decide⟩

/-- C8.  Determinism: equal chunk sequences drain to equal results, and the
whole generator-consumer pipeline equals a single pure left fold whose state
is the latch flag, the accumulated response and the recorded query — the
per-chunk step `drainStep` is a function of the state and the chunk only. -/
theorem process_deterministic_pure_fold (cs ds : List Chunk) (h : cs = ds) :
    processStream cs = processStream ds ∧
    processStream cs = (cs.foldl drainStep (false, "", none)).2 :=
  ⟨h ▸ rfl, consumeResults_eq_foldl cs false "" none⟩

/-- Witness for C8 at a concrete stream. -/
theorem process_deterministic_pure_fold_w :
    processStream wTwoMatches = processStream wTwoMatches ∧
    processStream wTwoMatches = (wTwoMatches.foldl drainStep (false, "", none)).2 :=
  process_deterministic_pure_fold wTwoMatches wTwoMatches rfl

/-- C9.  When the first captured payload of the stream is the empty string,
the latch is set all the same, so the drained query is `none` for the whole
stream no matter what later matching actions capture. -/
theorem empty_payload_latches (cs : List Chunk) (ps : List String)
    (h : streamPayloads cs = "" :: ps) :
    (processStream cs).2 = none := by
  rw [processStream_sql, h]
  simp

/-- Witness for C9: the empty payload is followed by a non-empty matching
action, and the result is still `none`. -/
theorem empty_payload_latches_w :
    streamPayloads wEmptyFirst = "" :: ["SELECT 2"] ∧
    (processStream wEmptyFirst).2 = none :=
  ⟨by decide, empty_payload_latches wEmptyFirst ["SELECT 2"] (by decide)⟩

/-- C10, amended.  Every successful capture decomposes the tool string as
some prefix, the literal `tool_input="`, the captured payload, and the
closing double quote: the payload contains neither a double quote (the close
is the nearest one) nor a newline, and the returned query is the unescaped
payload, which therefore never contains a double quote either.  The
occurrence used is the first one whose capture is closed before a newline,
not always the first occurrence of the literal. -/
theorem payload_between_quotes (a : Action) (t s : String)
    (ht : a.tool = some t) (h : actionSql a = some s) :
    ∃ p pre rest, t.toList = pre ++ toolInputLit ++ p ++ dq :: rest ∧
      dq ∉ p ∧ nl ∉ p ∧ s.toList = unescapeQuotes p ∧ dq ∉ s.toList := by
  simp only [actionSql, ht] at h
  by_cases hm : listContains sqlMarker t.toList = true
  · rw [if_pos hm] at h
    obtain ⟨p, hp, hs⟩ := Option.map_eq_some'.mp h
    obtain ⟨⟨pre, rest, hdec⟩, hdqp, hnlp⟩ := search_decomp _ _ hp
    refine ⟨p, pre, rest, hdec, hdqp, hnlp, ?_, ?_⟩
    · rw [← hs]
      rfl
    · rw [← hs]
      intro hmem
      rcases unescape_mem p dq (by simpa using hmem) with hc | hc
      · exact hdqp hc
      · exact absurd hc (by decide)
  · rw [if_neg hm] at h
    exact absurd h (by simp)

/-- Witness for C10 at a concrete matching action. -/
theorem payload_between_quotes_w :
    (Action.mk (some (mkTool "SELECT 1".toList))).tool = some (mkTool "SELECT 1".toList) ∧
    actionSql ⟨some (mkTool "SELECT 1".toList)⟩ = some "SELECT 1" ∧
    (∃ p pre rest, (mkTool "SELECT 1".toList).toList = pre ++ toolInputLit ++ p ++ dq :: rest ∧
      dq ∉ p ∧ nl ∉ p ∧ ("SELECT 1" : String).toList = unescapeQuotes p ∧
      dq ∉ ("SELECT 1" : String).toList) :=
  ⟨rfl, by decide, payload_between_quotes _ _ _ rfl (by decide)⟩

/-- Counterexample to C10 as stated: the first occurrence of the literal in
`cexNewlineTool` is followed by a newline before its closing quote, so the
claimed capture — the text between the first literal occurrence and the
nearest following double quote — differs from what the code extracts from a
later occurrence. -/
theorem payload_between_quotes_cex :
    specFirstCapture cexNewlineTool.toList = some [Char.ofNat 97, nl, Char.ofNat 98] ∧
    actionSql ⟨some cexNewlineTool⟩ = some (String.mk [Char.ofNat 99]) ∧
    String.mk (unescapeQuotes [Char.ofNat 97, nl, Char.ofNat 98]) ≠ String.mk [Char.ofNat 99] :=
  ⟨by decide, by decide, by decide⟩

end MindsDB
